import Mathlib

/-!
Verification development for the chunked IPv4 extraction pipeline in
`src/main.py` (class `IPExtractor`).

The embedding works over byte lists (`List Nat`, each entry an ASCII code).
It models:

* `IP_PATTERN.findall` — the compiled regex
  `\b(?:(?:25[0-5]|2[0-4][0-9]|[01]?[0-9][0-9]?)\.){3}(?:25[0-5]|2[0-4][0-9]|[01]?[0-9][0-9]?)\b`
  with Python `re` semantics: left-to-right scan, leftmost match,
  backtracking alternation tried in written order, greedy optional pieces,
  non-overlapping continuation after each match, and `\b` word boundaries
  (word bytes are `[0-9A-Za-z_]`).
* `validate_ip` — `ipaddress.ip_address` parsing (four dot-separated decimal
  octets, at most three digits, no redundant leading zeros, value at most
  255) followed by the unspecified / reserved / multicast / private checks.
* `_process_chunk` — findall, utf-8 decode (identity on the ASCII-only
  matches), set of candidates, partition by `validate_ip`.
* `extract_ips_from_file` — file availability check, chunked read with NO
  overlap between consecutive chunks (`file.read(chunk_size)` in a loop),
  per-chunk processing, set union merge, lexicographic sort of each side.
  The borrowed file system is modelled by an `Option (List Nat)` (`none`
  for a missing or unreadable path) plus a flag injecting a mid-stream read
  error (the `except` branch returns the empty pair).
-/

namespace IPExtractor

/-- ASCII code points of a string literal; used to write byte inputs readably. -/
def asciiBytes (s : String) : List Nat := s.toList.map Char.toNat

/-- Byte is an ASCII decimal digit, the regex class `[0-9]`. -/
def isDigitByte (b : Nat) : Bool := 48 ≤ b && b ≤ 57

/-- Byte is a regex word character `[0-9A-Za-z_]`, for word-boundary semantics. -/
def isWordByte (b : Nat) : Bool :=
  isDigitByte b || (65 ≤ b && b ≤ 90) || (97 ≤ b && b ≤ 122) || b == 95

/-- Whether the octet alternation `25[0-5]|2[0-4][0-9]|[01]?[0-9][0-9]?` can
consume exactly `n` bytes at the head of `l`.  The three-byte forms are the
three-digit branches; any two leading digits can be consumed as `[0-9][0-9]`
via an empty `[01]?`; a single digit always qualifies. -/
def octetAt (l : List Nat) : Nat → Bool
  | 3 =>
    match l with
    | b0 :: b1 :: b2 :: _ =>
      (b0 == 50 && b1 == 53 && (48 ≤ b2 && b2 ≤ 53)) ||
      (b0 == 50 && (48 ≤ b1 && b1 ≤ 52) && isDigitByte b2) ||
      ((b0 == 48 || b0 == 49) && isDigitByte b1 && isDigitByte b2)
    | _ => false
  | 2 =>
    match l with
    | b0 :: b1 :: _ => isDigitByte b0 && isDigitByte b1
    | _ => false
  | 1 =>
    match l with
    | b0 :: _ => isDigitByte b0
    | _ => false
  | _ => false

/-- Candidate consumption lengths of the octet alternation at the head of `l`,
in the backtracking preference order of Python's `re` engine.  The written
alternation tries its branches longest first, so the order is `3, 2, 1`. -/
def octetCandLens (l : List Nat) : List Nat := [3, 2, 1].filter (octetAt l)

/-- Trailing `\b` after a digit: end of buffer or a non-word byte follows. -/
def endBoundary (rest : List Nat) : Bool :=
  match rest with
  | [] => true
  | b :: _ => !(isWordByte b)

/-- Backtracking match of `k` dot-separated octets at the head of `l`,
returning the number of bytes consumed; the final octet must be followed by a
word boundary.  Mirrors the backtracking search of the compiled pattern. -/
def tryOctets : Nat → List Nat → Option Nat
  | 0, _ => none
  | 1, l =>
    (octetCandLens l).findSome? (fun n =>
      if endBoundary (l.drop n) then some n else none)
  | (k+2), l =>
    (octetCandLens l).findSome? (fun n =>
      match l.drop n with
      | b :: rest =>
        if b = 46 then (tryOctets (k+1) rest).map (fun m => n + 1 + m) else none
      | [] => none)

/-- Left-to-right scan of `IP_PATTERN.findall`.  `prevWord` records whether
the byte before the current position is a word character (initially false, as
at the start of the buffer): the leading `\b` admits a match attempt exactly
when it is false, since the pattern then requires a digit.  After a match the
scan resumes at its end (non-overlapping), where the previous byte is a
digit.  The fuel starts at the buffer length and dominates the number of
steps, every step consuming at least one byte. -/
def scanAux : Nat → Bool → List Nat → List (List Nat)
  | 0, _, _ => []
  | (fuel+1), prevWord, l =>
    match l with
    | [] => []
    | b :: rest =>
      if prevWord then scanAux fuel (isWordByte b) rest
      else
        match tryOctets 4 l with
        | some n => l.take n :: scanAux fuel true (l.drop n)
        | none => scanAux fuel (isWordByte b) rest

/-- `IP_PATTERN.findall(chunk)`: all non-overlapping matches, left to right. -/
def findall (l : List Nat) : List (List Nat) := scanAux l.length false l

/-- `bytes.decode('utf-8', errors='ignore')` restricted to what matters here:
every byte below 128 decodes to itself.  Matches of the pattern consist only
of digits and dots, so on them this is the identity. -/
def decodeAscii (m : List Nat) : List Nat := m.filter (fun b => b < 128)

/-- `str.split('.')` on byte lists (`"".split('.') == [""]`). -/
def splitDot : List Nat → List (List Nat)
  | [] => [[]]
  | b :: rest =>
    if b == 46 then [] :: splitDot rest
    else
      match splitDot rest with
      | [] => [[b]]
      | g :: gs => (b :: g) :: gs

/-- Decimal value of a digit-byte list, as `int(octet_str)` computes it. -/
def octetVal (s : List Nat) : Nat := s.foldl (fun acc b => acc * 10 + (b - 48)) 0

/-- One octet of `ipaddress.IPv4Address` string parsing: nonempty, all ASCII
digits, at most three of them, no redundant leading zero, value at most 255. -/
def parseOctet (s : List Nat) : Option Nat :=
  if s.isEmpty then none
  else if !(s.all isDigitByte) then none
  else if 3 < s.length then none
  else if s.head? == some 48 && s != [48] then none
  else if octetVal s ≤ 255 then some (octetVal s) else none

/-- `ipaddress.ip_address` on a dotted-quad string: exactly four parts, each a
valid octet.  Any other shape raises `ValueError` in Python, i.e. `none`. -/
def parseIPv4 (s : List Nat) : Option (Nat × Nat × Nat × Nat) :=
  match splitDot s with
  | [a, b, c, d] =>
    match parseOctet a, parseOctet b, parseOctet c, parseOctet d with
    | some x, some y, some z, some w => some (x, y, z, w)
    | _, _, _, _ => none
  | _ => none

/-- `IPv4Address.is_unspecified`: the address 0.0.0.0. -/
def isUnspecified (q : Nat × Nat × Nat × Nat) : Bool :=
  q.1 == 0 && q.2.1 == 0 && q.2.2.1 == 0 && q.2.2.2 == 0

/-- `IPv4Address.is_multicast`: 224.0.0.0/4. -/
def isMulticast (q : Nat × Nat × Nat × Nat) : Bool := 224 ≤ q.1 && q.1 ≤ 239

/-- `IPv4Address.is_reserved`: 240.0.0.0/4. -/
def isReserved (q : Nat × Nat × Nat × Nat) : Bool := 240 ≤ q.1

/-- Membership in `PRIVATE_NETWORKS = {10.0.0.0/8, 172.16.0.0/12, 192.168.0.0/16}`. -/
def isPrivate (q : Nat × Nat × Nat × Nat) : Bool :=
  q.1 == 10 || (q.1 == 172 && 16 ≤ q.2.1 && q.2.1 ≤ 31) ||
    (q.1 == 192 && q.2.1 == 168)

/-- `IPExtractor.validate_ip`: parse, reject unspecified / reserved /
multicast, and require membership in a private network; a parse failure
(`ValueError`) yields `False`. -/
def validate_ip (ip : List Nat) : Bool :=
  match parseIPv4 ip with
  | none => false
  | some q => !(isUnspecified q || isReserved q || isMulticast q) && isPrivate q

/-- `IPExtractor._process_chunk`: the set of decoded matches of the chunk,
partitioned by `validate_ip` — the `True` side goes to the private set, and
everything else (there is no third branch) goes to the public set.  Sets are
modelled as deduplicated lists; only membership is ever used downstream. -/
def process_chunk (chunk : List Nat) : List (List Nat) × List (List Nat) :=
  let ips := ((findall chunk).map decodeAscii).dedup
  (ips.filter (fun ip => validate_ip ip), ips.filter (fun ip => !(validate_ip ip)))

/-- The chunking loop `while True: chunk = file.read(chunk_size)` — successive
slices of `chunkSize` bytes with no overlap and no carry.  `read(0)` returns
an empty bytes object, so a zero chunk size produces no chunks at all.  The
fuel equals the remaining length and dominates the number of iterations. -/
def chunkifyAux : Nat → Nat → List Nat → List (List Nat)
  | 0, _, _ => []
  | _, _, [] => []
  | (fuel+1), cs, l =>
    if cs = 0 then []
    else l.take cs :: chunkifyAux fuel cs (l.drop cs)

/-- The list of chunks `extract_ips_from_file` reads from a file of the given
bytes. -/
def chunkify (cs : Nat) (l : List Nat) : List (List Nat) := chunkifyAux l.length cs l

/-- Strict lexicographic byte comparison, as Python compares `str` values of
ASCII text: a proper initial segment sorts first, otherwise the first
differing byte decides. -/
def lexLe : List Nat → List Nat → Bool
  | [], _ => true
  | _ :: _, [] => false
  | a :: as, b :: bs =>
    if a < b then true
    else if b < a then false
    else lexLe as bs

/-- The order used by `sorted` on the extracted address strings. -/
def ipLe (a b : List Nat) : Prop := lexLe a b = true

instance : DecidableRel ipLe := fun a b => instDecidableEqBool (lexLe a b) true

/-- `sorted(list(s))` for a set `s` accumulated from the given elements:
deduplicate, then sort lexicographically. -/
def sortIPs (l : List (List Nat)) : List (List Nat) :=
  List.insertionSort ipLe l.dedup

/-- The merge loop over completed futures: union the private sides and the
public sides of all chunk results, then sort each.  The argument order models
the completion order of the workers. -/
def mergeResults (rs : List (List (List Nat) × List (List Nat))) :
    List (List Nat) × List (List Nat) :=
  (sortIPs (rs.map Prod.fst).flatten, sortIPs (rs.map Prod.snd).flatten)

/-- `IPExtractor.extract_ips_from_file`.  `file = none` models a path for
which `os.path.isfile` is false or that cannot be statted; `readError = true`
models an exception raised while reading or processing chunks, which the
`except` branch converts to the empty pair. -/
def extract_ips_from_file (file : Option (List Nat)) (readError : Bool)
    (chunkSize : Nat) : List (List Nat) × List (List Nat) :=
  match file with
  | none => ([], [])
  | some content =>
    if content.length = 0 then ([], [])
    else if readError then ([], [])
    else mergeResults ((chunkify chunkSize content).map process_chunk)

/-- The shape of one octet as the pattern can consume it: a nonempty run of
at most three decimal digits whose value is at most 255.  (Redundant leading
zeros are NOT excluded; the third branch of the alternation accepts them.) -/
def isOctetToken (o : List Nat) : Prop :=
  o ≠ [] ∧ o.length ≤ 3 ∧ (∀ b ∈ o, isDigitByte b = true) ∧ octetVal o ≤ 255

/-! ### Order lemmas for the lexicographic sort -/

theorem lexLe_total : ∀ a b : List Nat, lexLe a b = true ∨ lexLe b a = true
  | [], _ => Or.inl rfl
  | _ :: _, [] => Or.inr rfl
  | a :: as, b :: bs => by
    simp only [lexLe]
    rcases Nat.lt_trichotomy a b with h | h | h
    · left; simp [h]
    · subst h
      simp only [Nat.lt_irrefl, if_false]
      exact lexLe_total as bs
    · right; simp [h, Nat.lt_asymm h]

theorem lexLe_trans : ∀ a b c : List Nat,
    lexLe a b = true → lexLe b c = true → lexLe a c = true
  | [], _, _, _, _ => rfl
  | _ :: _, [], _, h1, _ => by simp [lexLe] at h1
  | _ :: _, _ :: _, [], _, h2 => by simp [lexLe] at h2
  | a :: as, b :: bs, c :: cs, h1, h2 => by
    simp only [lexLe] at h1 h2 ⊢
    rcases Nat.lt_trichotomy a b with hab | hab | hab
    · rcases Nat.lt_trichotomy b c with hbc | hbc | hbc
      · simp [Nat.lt_trans hab hbc]
      · subst hbc; simp [hab]
      · rw [if_neg (Nat.lt_asymm hbc), if_pos hbc] at h2; exact absurd h2 (by simp)
    · subst hab
      rcases Nat.lt_trichotomy a c with hac | hac | hac
      · simp [hac]
      · subst hac
        simp only [Nat.lt_irrefl, if_false] at h1 h2 ⊢
        exact lexLe_trans as bs cs h1 h2
      · rw [if_neg (Nat.lt_asymm hac), if_pos hac] at h2; exact absurd h2 (by simp)
    · rw [if_neg (Nat.lt_asymm hab), if_pos hab] at h1; exact absurd h1 (by simp)

theorem lexLe_antisymm : ∀ a b : List Nat,
    lexLe a b = true → lexLe b a = true → a = b
  | [], [], _, _ => rfl
  | [], _ :: _, _, h2 => by simp [lexLe] at h2
  | _ :: _, [], h1, _ => by simp [lexLe] at h1
  | a :: as, b :: bs, h1, h2 => by
    simp only [lexLe] at h1 h2
    rcases Nat.lt_trichotomy a b with h | h | h
    · rw [if_neg (Nat.lt_asymm h), if_pos h] at h2; exact absurd h2 (by simp)
    · subst h
      simp only [Nat.lt_irrefl, if_false] at h1 h2
      rw [lexLe_antisymm as bs h1 h2]
    · rw [if_neg (Nat.lt_asymm h), if_pos h] at h1; exact absurd h1 (by simp)

instance : IsTrans (List Nat) ipLe := ⟨lexLe_trans⟩

instance : IsAntisymm (List Nat) ipLe := ⟨lexLe_antisymm⟩

instance : IsTotal (List Nat) ipLe := ⟨lexLe_total⟩

/-! ### Membership and permutation lemmas for the merge -/

theorem mem_sortIPs {ip : List Nat} {l : List (List Nat)} :
    ip ∈ sortIPs l ↔ ip ∈ l := by
  unfold sortIPs
  rw [(List.perm_insertionSort ipLe l.dedup).mem_iff, List.mem_dedup]

theorem sortIPs_perm_eq {l l₂ : List (List Nat)} (h : l.Perm l₂) :
    sortIPs l = sortIPs l₂ := by
  apply List.eq_of_perm_of_sorted (r := ipLe)
  · exact (List.perm_insertionSort ipLe l.dedup).trans
      (h.dedup.trans (List.perm_insertionSort ipLe l₂.dedup).symm)
  · exact List.sorted_insertionSort ipLe _
  · exact List.sorted_insertionSort ipLe _

theorem mergeResults_perm {rs rs₂ : List (List (List Nat) × List (List Nat))}
    (h : rs.Perm rs₂) : mergeResults rs = mergeResults rs₂ := by
  unfold mergeResults
  rw [sortIPs_perm_eq (h.map Prod.fst).flatten, sortIPs_perm_eq (h.map Prod.snd).flatten]

theorem mem_private_validate {ch ip : List Nat}
    (h : ip ∈ (process_chunk ch).1) : validate_ip ip = true := by
  simp only [process_chunk, List.mem_filter] at h
  exact h.2

theorem mem_public_validate {ch ip : List Nat}
    (h : ip ∈ (process_chunk ch).2) : validate_ip ip = false := by
  simp only [process_chunk, List.mem_filter, Bool.not_eq_true'] at h
  exact h.2

/-! ### Structure of the candidates the matcher can produce -/

theorem isDigitByte_iff {b : Nat} : isDigitByte b = true ↔ 48 ≤ b ∧ b ≤ 57 := by
  simp [isDigitByte]

theorem octetCandLens_token {l : List Nat} {n : Nat} (h : n ∈ octetCandLens l) :
    n ≤ l.length ∧ isOctetToken (l.take n) := by
  rw [octetCandLens, List.mem_filter] at h
  obtain ⟨hn, hat⟩ := h
  simp only [List.mem_cons, List.not_mem_nil, or_false] at hn
  rcases hn with rfl | rfl | rfl
  · cases l with
    | nil => exact absurd hat (by simp [octetAt])
    | cons b0 t =>
      cases t with
      | nil => exact absurd hat (by simp [octetAt])
      | cons b1 t2 =>
        cases t2 with
        | nil => exact absurd hat (by simp [octetAt])
        | cons b2 rest =>
          simp only [octetAt, Bool.or_eq_true, Bool.and_eq_true, beq_iff_eq,
            decide_eq_true_eq, isDigitByte_iff] at hat
          refine ⟨by simp, ?_, by simp, ?_, ?_⟩
          · simp
          · intro b hb
            simp only [List.take_succ_cons, List.take_zero, List.mem_cons,
              List.not_mem_nil, or_false] at hb
            rw [isDigitByte_iff]
            rcases hb with rfl | rfl | rfl <;> omega
          · have : octetVal ((b0 :: b1 :: b2 :: rest).take 3) =
                ((0 * 10 + (b0 - 48)) * 10 + (b1 - 48)) * 10 + (b2 - 48) := rfl
            rw [this]
            omega
  · cases l with
    | nil => exact absurd hat (by simp [octetAt])
    | cons b0 t =>
      cases t with
      | nil => exact absurd hat (by simp [octetAt])
      | cons b1 t2 =>
        simp only [octetAt, Bool.and_eq_true, isDigitByte_iff] at hat
        refine ⟨by simp, ?_, by simp, ?_, ?_⟩
        · simp
        · intro b hb
          simp only [List.take_succ_cons, List.take_zero, List.mem_cons,
            List.not_mem_nil, or_false] at hb
          rw [isDigitByte_iff]
          rcases hb with rfl | rfl <;> omega
        · have : octetVal ((b0 :: b1 :: t2).take 2) =
              (0 * 10 + (b0 - 48)) * 10 + (b1 - 48) := rfl
          rw [this]
          omega
  · cases l with
    | nil => exact absurd hat (by simp [octetAt])
    | cons b0 t =>
      simp only [octetAt, isDigitByte_iff] at hat
      refine ⟨by simp, ?_, by simp, ?_, ?_⟩
      · simp
      · intro b hb
        simp only [List.take_succ_cons, List.take_zero, List.mem_cons,
          List.not_mem_nil, or_false] at hb
        rw [isDigitByte_iff]
        rcases hb with rfl
        omega
      · have : octetVal ((b0 :: t).take 1) = 0 * 10 + (b0 - 48) := rfl
        rw [this]
        omega

theorem tryOctets_one {l : List Nat} {n : Nat} (h : tryOctets 1 l = some n) :
    n ≤ l.length ∧ isOctetToken (l.take n) := by
  unfold tryOctets at h
  obtain ⟨n1, hmem, hf⟩ := List.exists_of_findSome?_eq_some h
  split at hf
  · injection hf with e
    subst e
    exact octetCandLens_token hmem
  · exact Option.noConfusion hf

theorem take_decompose {l rest : List Nat} {n1 m1 : Nat}
    (hd : l.drop n1 = 46 :: rest) :
    l.take (n1 + 1 + m1) = l.take n1 ++ 46 :: rest.take m1 := by
  have hlen : n1 ≤ l.length := by
    by_contra hc
    push_neg at hc
    rw [List.drop_eq_nil_of_le (Nat.le_of_lt hc)] at hd
    exact List.noConfusion hd
  conv_lhs => rw [← List.take_append_drop n1 l, hd]
  rw [List.take_append_eq_append_take,
    List.take_of_length_le (by rw [List.length_take, Nat.min_eq_left hlen]; omega)]
  have h2 : n1 + 1 + m1 - (l.take n1).length = m1 + 1 := by
    rw [List.length_take, Nat.min_eq_left hlen]; omega
  rw [h2, List.take_succ_cons]

theorem tryOctets_step {k : Nat} {l : List Nat} {n : Nat}
    (h : tryOctets (k+2) l = some n) :
    ∃ n1 rest m1, n1 ∈ octetCandLens l ∧ l.drop n1 = 46 :: rest ∧
      tryOctets (k+1) rest = some m1 ∧
      l.take n = l.take n1 ++ 46 :: rest.take m1 := by
  unfold tryOctets at h
  obtain ⟨n1, hmem, hf⟩ := List.exists_of_findSome?_eq_some h
  split at hf
  case h_1 b rest hd =>
    split at hf
    case isTrue hb =>
      subst hb
      obtain ⟨m1, hm1, hn⟩ := Option.map_eq_some'.mp hf
      subst hn
      exact ⟨n1, rest, m1, hmem, hd, hm1, take_decompose hd⟩
    case isFalse hb => exact Option.noConfusion hf
  case h_2 hd => exact Option.noConfusion hf

theorem scanAux_matches : ∀ {fuel : Nat} {pw : Bool} {l m : List Nat},
    m ∈ scanAux fuel pw l →
    ∃ l2 n, tryOctets 4 l2 = some n ∧ m = l2.take n := by
  intro fuel
  induction fuel with
  | zero => intro pw l m h; simp [scanAux] at h
  | succ fuel ih =>
    intro pw l m h
    cases l with
    | nil => simp [scanAux] at h
    | cons b rest =>
      simp only [scanAux] at h
      split at h
      · exact ih h
      · split at h
        · rcases List.mem_cons.mp h with rfl | h2
          · exact ⟨b :: rest, _, by assumption, rfl⟩
          · exact ih h2
        · exact ih h

/-! ### Claim theorems -/

/-- Claim C1: the specification asserts that each chunk after the first is
read with a prefix overlap of at least 15 bytes, so that a dotted-quad token
straddling a chunk split appears exactly once in the merged result for any
chunk size of at least 15.  The code reads consecutive `file.read(chunk_size)`
slices with no overlap at all: on the 22-byte input "abcdefghij 10.20.30.40"
with chunk size 15 the address 10.20.30.40 straddles the split and is found
zero times, while reading the same file as a single 22-byte chunk finds it. -/
theorem claim_C1_overlap_missing :
    extract_ips_from_file (some (asciiBytes "abcdefghij 10.20.30.40")) false 15 =
      ([], []) ∧
    extract_ips_from_file (some (asciiBytes "abcdefghij 10.20.30.40")) false 22 =
      ([asciiBytes "10.20.30.40"], []) := by decide

/-- Claim C2: the specification asserts merged output is identical for chunk
sizes 64, 1024 and "whole file".  Because chunks are read without overlap, a
72-byte file of sixty `x` bytes followed by " 10.20.30.40" splits the address
across the 64-byte boundary: chunk size 64 yields nothing while chunk sizes
1024 and 72 (one chunk) both find the private address. -/
theorem claim_C2_chunk_size_variance :
    extract_ips_from_file
      (some (List.replicate 60 120 ++ asciiBytes " 10.20.30.40")) false 64 =
      ([], []) ∧
    extract_ips_from_file
      (some (List.replicate 60 120 ++ asciiBytes " 10.20.30.40")) false 1024 =
      ([asciiBytes "10.20.30.40"], []) ∧
    extract_ips_from_file
      (some (List.replicate 60 120 ++ asciiBytes " 10.20.30.40")) false 72 =
      ([asciiBytes "10.20.30.40"], []) := by decide

/-- Claim C3, counterexample: the claim says a match failing semantic
validation (0.0.0.0, 224.0.0.1) appears in neither output set.  In the code
`(private_ips if cls.validate_ip(ip) else public_ips).add(ip)` has no discard
branch: both addresses land in the public set of the chunk processor. -/
theorem claim_C3_counterexample :
    (process_chunk (asciiBytes "0.0.0.0 224.0.0.1")).1 = [] ∧
    (process_chunk (asciiBytes "0.0.0.0 224.0.0.1")).2 =
      [asciiBytes "0.0.0.0", asciiBytes "224.0.0.1"] ∧
    asciiBytes "0.0.0.0" ∈ (process_chunk (asciiBytes "0.0.0.0 224.0.0.1")).2 ∧
    asciiBytes "224.0.0.1" ∈ (process_chunk (asciiBytes "0.0.0.0 224.0.0.1")).2 := by
  decide

/-- Claim C3, amended: a candidate of the chunk that fails `validate_ip`
(including 0.0.0.0 and multicast addresses) is kept out of the private set
but is NOT discarded — it is placed in the public set. -/
theorem claim_C3_amended (chunk ip : List Nat)
    (h1 : ip ∈ ((findall chunk).map decodeAscii).dedup)
    (h2 : validate_ip ip = false) :
    ip ∉ (process_chunk chunk).1 ∧ ip ∈ (process_chunk chunk).2 := by
  constructor
  · intro hmem
    rw [mem_private_validate hmem] at h2
    exact Bool.noConfusion h2
  · simp only [process_chunk, List.mem_filter, Bool.not_eq_true']
    exact ⟨h1, h2⟩

/-- Witness for the amended claim C3 at the concrete multicast input. -/
theorem claim_C3_witness :
    asciiBytes "224.0.0.1" ∉ (process_chunk (asciiBytes "224.0.0.1")).1 ∧
    asciiBytes "224.0.0.1" ∈ (process_chunk (asciiBytes "224.0.0.1")).2 :=
  claim_C3_amended (asciiBytes "224.0.0.1") (asciiBytes "224.0.0.1")
    (by decide) (by decide)

/-- Claim C4: the documented scenario.  On the given input processed as a
single chunk, the private side is ["10.0.0.5", "192.168.1.1"] (sorted
lexicographically), the public side is ["8.8.8.8"], and the out-of-range
shapes 999.1.1.1 and 300.1.1.1 contribute nothing. -/
theorem claim_C4_scenario :
    extract_ips_from_file
      (some (asciiBytes
        "connect from 192.168.1.1 to 8.8.8.8 and 10.0.0.5; invalid 999.1.1.1 and 300.1.1.1"))
      false 1024 =
    ([asciiBytes "10.0.0.5", asciiBytes "192.168.1.1"], [asciiBytes "8.8.8.8"]) := by
  decide

/-- Claim C5, counterexample: the claim states the empty pair is returned
EXACTLY when the file is absent, unreadable or empty or a mid-stream error
occurs.  A readable, nonempty, error-free file containing no address at all
also returns the empty pair, so the "only if" direction fails. -/
theorem claim_C5_counterexample :
    extract_ips_from_file (some (asciiBytes "hello")) false 1024 = ([], []) ∧
    (asciiBytes "hello").length ≠ 0 := by decide

/-- Claim C5, amended: whenever the file is absent or unreadable
(`os.path.isfile` false), or empty, or a mid-stream error occurs, the
function returns the empty pair and raises nothing — but the converse does
not hold, since a readable nonempty file without addresses also returns it. -/
theorem claim_C5_amended (file : Option (List Nat)) (err : Bool) (cs : Nat)
    (h : file = none ∨ file = some [] ∨ err = true) :
    extract_ips_from_file file err cs = ([], []) := by
  rcases h with h | h | h
  · subst h; rfl
  · subst h; rfl
  · subst h
    cases file with
    | none => rfl
    | some content =>
      by_cases hl : content.length = 0
      · simp [extract_ips_from_file, hl]
      · simp [extract_ips_from_file, hl]

/-- Witness for the amended claim C5 at a missing file. -/
theorem claim_C5_witness : extract_ips_from_file none false 1024 = ([], []) :=
  claim_C5_amended none false 1024 (Or.inl rfl)

/-- Claim C6: the two final lists are disjoint.  Classification is the pure
function `validate_ip`, so a string reaching the private side satisfies it in
every chunk and a string reaching the public side falsifies it in every
chunk; no string can be in both merged lists. -/
theorem claim_C6_disjoint (file : Option (List Nat)) (err : Bool) (cs : Nat)
    (ip : List Nat) (h : ip ∈ (extract_ips_from_file file err cs).1) :
    ip ∉ (extract_ips_from_file file err cs).2 := by
  intro h2
  cases file with
  | none => simp [extract_ips_from_file] at h
  | some content =>
    by_cases hl : content.length = 0
    · simp [extract_ips_from_file, hl] at h
    · cases err with
      | true => simp [extract_ips_from_file, hl] at h
      | false =>
        have hx : extract_ips_from_file (some content) false cs =
            mergeResults ((chunkify cs content).map process_chunk) := by
          simp [extract_ips_from_file, hl]
        rw [hx] at h h2
        unfold mergeResults at h h2
        simp only [mem_sortIPs, List.mem_flatten, List.mem_map] at h h2
        obtain ⟨l1, ⟨r1, hr1, hl1⟩, hip1⟩ := h
        obtain ⟨l2, ⟨r2, hr2, hl2⟩, hip2⟩ := h2
        obtain ⟨ch1, _, hch1⟩ := hr1
        obtain ⟨ch2, _, hch2⟩ := hr2
        subst hch1; subst hch2; subst hl1; subst hl2
        have e1 := mem_private_validate hip1
        have e2 := mem_public_validate hip2
        rw [e1] at e2
        exact Bool.noConfusion e2

/-- Witness for claim C6: the single private address of a one-address file is
not in the public list. -/
theorem claim_C6_witness :
    asciiBytes "10.0.0.5" ∉
      (extract_ips_from_file (some (asciiBytes "10.0.0.5")) false 1024).2 :=
  claim_C6_disjoint (some (asciiBytes "10.0.0.5")) false 1024
    (asciiBytes "10.0.0.5") (by decide)

/-- Claim C7: extraction is deterministic and merge-order independent.  The
merged, sorted output equals `mergeResults` of the chunk results in ANY
completion order: for every permutation `rs` of the per-chunk results, the
function's output is `mergeResults rs`, because the merge is a set union
followed by a sort. -/
theorem claim_C7_order_independent (content : List Nat) (cs : Nat)
    (rs : List (List (List Nat) × List (List Nat)))
    (hne : content.length ≠ 0)
    (hperm : rs.Perm ((chunkify cs content).map process_chunk)) :
    extract_ips_from_file (some content) false cs = mergeResults rs := by
  have hx : extract_ips_from_file (some content) false cs =
      mergeResults ((chunkify cs content).map process_chunk) := by
    simp [extract_ips_from_file, hne]
  rw [hx]
  exact (mergeResults_perm hperm).symm

/-- Witness for claim C7: merging the two chunk results of a small file in
reversed completion order gives the same final pair. -/
theorem claim_C7_witness :
    extract_ips_from_file (some (asciiBytes "8.8.8.8 10.0.0.5")) false 9 =
      mergeResults
        (((chunkify 9 (asciiBytes "8.8.8.8 10.0.0.5")).map process_chunk).reverse) :=
  claim_C7_order_independent (asciiBytes "8.8.8.8 10.0.0.5") 9 _
    (by decide) (List.reverse_perm _)

/-- Claim C8: round-trip stability.  Every member of a chunk's private output
re-runs through the classifier as private (`validate_ip` true), and every
member of its public output re-runs as public (`validate_ip` false). -/
theorem claim_C8_round_trip (chunk ip : List Nat) :
    (ip ∈ (process_chunk chunk).1 → validate_ip ip = true) ∧
    (ip ∈ (process_chunk chunk).2 → validate_ip ip = false) :=
  ⟨mem_private_validate, mem_public_validate⟩

/-- Witness for claim C8 on a private and a public concrete address. -/
theorem claim_C8_witness :
    validate_ip (asciiBytes "10.0.0.5") = true ∧
    validate_ip (asciiBytes "8.8.8.8") = false :=
  ⟨(claim_C8_round_trip (asciiBytes "10.0.0.5") (asciiBytes "10.0.0.5")).1
      (by decide),
   (claim_C8_round_trip (asciiBytes "8.8.8.8") (asciiBytes "8.8.8.8")).2
      (by decide)⟩

/-- Claim C9, counterexample: the claim says no matched candidate contains an
octet with a redundant leading zero.  The branch `[01]?[0-9][0-9]?` of the
alternation accepts them: on the input " 010.1.1.1 " the matcher emits the
candidate "010.1.1.1", whose first dot-separated octet is "010" — longer than
one character and starting with the zero digit. -/
theorem claim_C9_counterexample :
    findall (asciiBytes " 010.1.1.1 ") = [asciiBytes "010.1.1.1"] ∧
    splitDot (asciiBytes "010.1.1.1") =
      [asciiBytes "010", asciiBytes "1", asciiBytes "1", asciiBytes "1"] ∧
    (asciiBytes "010").head? = some 48 ∧ 1 < (asciiBytes "010").length := by
  decide

/-- Claim C9, amended: every candidate the matcher produces consists of four
dot-separated decimal octets of at most three digits each, with numeric value
in [0, 255]; octets with redundant leading zeros (such as "010") are NOT
excluded by the matcher. -/
theorem claim_C9_amended (input m : List Nat) (h : m ∈ findall input) :
    ∃ o1 o2 o3 o4 : List Nat,
      m = o1 ++ 46 :: (o2 ++ 46 :: (o3 ++ 46 :: o4)) ∧
      isOctetToken o1 ∧ isOctetToken o2 ∧ isOctetToken o3 ∧ isOctetToken o4 := by
  replace h : m ∈ scanAux input.length false input := h
  obtain ⟨l2, n, htry, rfl⟩ := scanAux_matches h
  obtain ⟨n1, r1, m1, hc1, hd1, ht1, he1⟩ :=
    tryOctets_step (show tryOctets (2+2) l2 = some n from htry)
  obtain ⟨n2, r2, m2, hc2, hd2, ht2, he2⟩ :=
    tryOctets_step (show tryOctets (1+2) r1 = some m1 from ht1)
  obtain ⟨n3, r3, m3, hc3, hd3, ht3, he3⟩ :=
    tryOctets_step (show tryOctets (0+2) r2 = some m2 from ht2)
  obtain ⟨hl4, htok4⟩ := tryOctets_one ht3
  refine ⟨l2.take n1, r1.take n2, r2.take n3, r3.take m3, ?_,
    (octetCandLens_token hc1).2, (octetCandLens_token hc2).2,
    (octetCandLens_token hc3).2, htok4⟩
  rw [he1, he2, he3]

/-- Witness for the amended claim C9 at the leading-zero input: the candidate
"010.1.1.1" splits into four in-range octet tokens. -/
theorem claim_C9_witness :
    ∃ o1 o2 o3 o4 : List Nat,
      asciiBytes "010.1.1.1" = o1 ++ 46 :: (o2 ++ 46 :: (o3 ++ 46 :: o4)) ∧
      isOctetToken o1 ∧ isOctetToken o2 ∧ isOctetToken o3 ∧ isOctetToken o4 :=
  claim_C9_amended (asciiBytes " 010.1.1.1 ") (asciiBytes "010.1.1.1") (by decide)

/-- Claim C10: splitting a longer dotted-quad token at a chunk boundary
makes its strict prefix match at the end of the chunk buffer and be emitted
as a spurious address.  On "ab 192.168.1.100" with chunk size 15, the merged
output contains "192.168.1.10", a string that is not a match of the pattern
anywhere in the whole input. -/
theorem claim_C10_spurious_boundary_match :
    extract_ips_from_file (some (asciiBytes "ab 192.168.1.100")) false 15 =
      ([asciiBytes "192.168.1.10"], []) ∧
    asciiBytes "192.168.1.10" ∉ findall (asciiBytes "ab 192.168.1.100") := by
  decide

end IPExtractor
